import Mathlib

/-!
Verification of the gridy repository's room-coordination core against its
natural-language specification.  The definitions below are shallow embeddings
of the TypeScript source: `useGlobalRoundSync` (hooks/useGlobalRoundSync.ts),
`getWinnerIndexForRound` and the `LuckyWheelGame` winner/payout effects
(components/LuckyWheelGame.tsx), the `WheelRoomProvider` ledger merge,
migration and heartbeat logic (contexts/WheelRoomContext.tsx), and the
`BalanceProvider` wallet operations (contexts/BalanceContext.tsx).
JavaScript numbers are modelled as `ℚ` (exact arithmetic), timestamps and
millisecond durations as `ℕ`, and the round identifier as `ℤ` where the
source allows arbitrary integers.
-/

namespace Gridy

/-! ### Clock (useGlobalRoundSync) -/

/-- The three phases of a round, from `type GlobalPhase`. -/
inductive GlobalPhase
  | preparation
  | spin
  | reveal
deriving DecidableEq, Repr

/-- `ROUND_LENGTH_S = 60`. -/
def ROUND_LENGTH_S : ℕ := 60

/-- `PREP_END_S = 40`. -/
def PREP_END_S : ℕ := 40

/-- `SPIN_END_S = 45`. -/
def SPIN_END_S : ℕ := 45

/-- `secondsInMinute(): Math.floor(now() / 1000) % ROUND_LENGTH_S`. -/
def secondsInMinute (nowMs : ℕ) : ℕ := nowMs / 1000 % ROUND_LENGTH_S

/-- Phase selection from `useGlobalRoundSync`'s memo:
`roundSecond < PREP_END_S → preparation`, `< SPIN_END_S → spin`, else reveal. -/
def phaseOf (roundSecond : ℕ) : GlobalPhase :=
  if roundSecond < PREP_END_S then GlobalPhase.preparation
  else if roundSecond < SPIN_END_S then GlobalPhase.spin
  else GlobalPhase.reveal

/-- `phaseSecondsLeft` from the same memo. -/
def phaseSecondsLeftOf (roundSecond : ℕ) : ℕ :=
  if roundSecond < PREP_END_S then PREP_END_S - roundSecond
  else if roundSecond < SPIN_END_S then SPIN_END_S - roundSecond
  else ROUND_LENGTH_S - roundSecond

/-- `roundId = Math.floor(now() / 1000 / ROUND_LENGTH_S)`. -/
def roundIdOf (nowMs : ℕ) : ℕ := nowMs / 1000 / ROUND_LENGTH_S

/-- The `GlobalRoundState` record returned by `useGlobalRoundSync`. -/
structure GlobalRoundState where
  phase : GlobalPhase
  phaseSecondsLeft : ℕ
  roundSecond : ℕ
  roundId : ℕ
deriving DecidableEq, Repr

/-- The state `useGlobalRoundSync` computes at wall-clock time `nowMs`. -/
def globalRoundSync (nowMs : ℕ) : GlobalRoundState :=
  let s := secondsInMinute nowMs
  { phase := phaseOf s
    phaseSecondsLeft := phaseSecondsLeftOf s
    roundSecond := s
    roundId := roundIdOf nowMs }

/-! ### Winner oracle (LuckyWheelGame) -/

/-- `getWinnerIndexForRound(segmentCount, roundId)`:
`if (segmentCount <= 0) return 0; return Math.abs(roundId) % segmentCount`. -/
def getWinnerIndexForRound (segmentCount : ℤ) (roundId : ℤ) : ℤ :=
  if segmentCount ≤ 0 then 0 else (roundId.natAbs : ℤ) % segmentCount

/-! ### Wheel segments (LuckyWheelGame) -/

/-- `WheelBet`: one participant's entry in the ledger
(`avatar` is presentation-only and omitted). -/
structure WheelBet where
  id : String
  label : String
  amount : ℚ
deriving DecidableEq, Repr

/-- `Segment`: a wheel bet extended with its angular span, as built in the
`segments` memo (`color` is presentation-only and omitted). -/
structure Segment where
  id : String
  label : String
  amount : ℚ
  startAngle : ℚ
  endAngle : ℚ
  index : ℕ
deriving DecidableEq, Repr

/-- `totalPool`: `effectiveBets.reduce((s, b) => s + b.amount, 0)`. -/
def totalPool (bets : List WheelBet) : ℚ :=
  bets.foldl (fun s b => s + b.amount) 0

/-- The mapping loop of the `segments` memo: contiguous slices starting at
angle `a`, each of span `(b.amount / tp) * 360`. -/
def mkSegmentsAux (tp : ℚ) : List WheelBet → ℚ → ℕ → List Segment
  | [], _, _ => []
  | b :: rest, a, i =>
      let span := b.amount / tp * 360
      { id := b.id, label := b.label, amount := b.amount,
        startAngle := a, endAngle := a + span, index := i }
        :: mkSegmentsAux tp rest (a + span) (i + 1)

/-- The `segments` memo: empty when the pool is not positive, otherwise the
contiguous proportional slices over the bets with `amount > 0`. -/
def segmentsOf (bets : List WheelBet) : List Segment :=
  if totalPool bets ≤ 0 then []
  else mkSegmentsAux (totalPool bets) (bets.filter fun b => decide (0 < b.amount)) 0 0

/-- The host-side winner effect (LuckyWheelGame, spin entry): pick
`idx = getWinnerIndexForRound(segments.length, roundId)`, and broadcast the
segment's id together with `seg.startAngle + span * 0.52`. -/
def hostPickWinner (segments : List Segment) (roundId : ℤ) : Option (String × ℚ) :=
  if segments.length = 0 then none
  else
    match segments.get? (getWinnerIndexForRound (segments.length : ℤ) roundId).toNat with
    | none => none
    | some seg =>
        some (seg.id, seg.startAngle + (seg.endAngle - seg.startAngle) * (52 / 100))

theorem mkSegmentsAux_map_id (tp : ℚ) :
    ∀ (l : List WheelBet) (a : ℚ) (i : ℕ),
      (mkSegmentsAux tp l a i).map Segment.id = l.map WheelBet.id
  | [], _, _ => rfl
  | b :: rest, a, i => by
      simp [mkSegmentsAux, mkSegmentsAux_map_id tp rest]

theorem mkSegmentsAux_amount_mem (tp : ℚ) :
    ∀ (l : List WheelBet) (a : ℚ) (i : ℕ),
      ∀ s ∈ mkSegmentsAux tp l a i, ∃ b ∈ l, s.amount = b.amount
  | [], _, _ => by simp [mkSegmentsAux]
  | b :: rest, a, i => by
      intro s hs
      simp only [mkSegmentsAux, List.mem_cons] at hs
      rcases hs with rfl | hs
      · exact ⟨b, List.mem_cons_self _ _, rfl⟩
      · obtain ⟨b', hb', he⟩ := mkSegmentsAux_amount_mem tp rest _ _ s hs
        exact ⟨b', List.mem_cons_of_mem _ hb', he⟩

/-! ### Claim C2 -/

/-- C2: for every wall-clock time `t` (ms), the clock yields phase
Preparation exactly when `roundSecond = ⌊t/1000⌋ % 60 ∈ [0,40)`, Spin on
`[40,45)`, Reveal on `[45,60)`; `roundSecond + phaseSecondsLeft` equals the
next phase boundary (40, 45, resp. 60); `roundId = ⌊t / 60000⌋`; and the
whole pattern repeats every 60000 ms with `roundId` advancing by exactly 1
per cycle. -/
theorem c2_round_clock (t : ℕ) :
    (globalRoundSync t).roundSecond = t / 1000 % 60
    ∧ ((globalRoundSync t).phase = GlobalPhase.preparation ↔ t / 1000 % 60 < 40)
    ∧ ((globalRoundSync t).phase = GlobalPhase.spin ↔
        40 ≤ t / 1000 % 60 ∧ t / 1000 % 60 < 45)
    ∧ ((globalRoundSync t).phase = GlobalPhase.reveal ↔ 45 ≤ t / 1000 % 60)
    ∧ (globalRoundSync t).roundSecond + (globalRoundSync t).phaseSecondsLeft
        = (match (globalRoundSync t).phase with
           | GlobalPhase.preparation => 40
           | GlobalPhase.spin => 45
           | GlobalPhase.reveal => 60)
    ∧ (globalRoundSync t).roundId = t / 60000
    ∧ (globalRoundSync (t + 60000)).phase = (globalRoundSync t).phase
    ∧ (globalRoundSync (t + 60000)).roundSecond = (globalRoundSync t).roundSecond
    ∧ (globalRoundSync (t + 60000)).roundId = (globalRoundSync t).roundId + 1 := by
  have hsec : secondsInMinute (t + 60000) = secondsInMinute t := by
    unfold secondsInMinute ROUND_LENGTH_S
    omega
  have hround : roundIdOf (t + 60000) = roundIdOf t + 1 := by
    unfold roundIdOf ROUND_LENGTH_S
    omega
  have hlt : t / 1000 % 60 < 60 := Nat.mod_lt _ (by norm_num)
  refine ⟨rfl, ?_, ?_, ?_, ?_, ?_, ?_, ?_, ?_⟩
  · simp only [globalRoundSync, phaseOf, secondsInMinute, ROUND_LENGTH_S,
      PREP_END_S, SPIN_END_S]
    split_ifs with h1 h2 <;> simp <;> omega
  · simp only [globalRoundSync, phaseOf, secondsInMinute, ROUND_LENGTH_S,
      PREP_END_S, SPIN_END_S]
    split_ifs with h1 h2 <;> simp <;> omega
  · simp only [globalRoundSync, phaseOf, secondsInMinute, ROUND_LENGTH_S,
      PREP_END_S, SPIN_END_S]
    split_ifs with h1 h2 <;> simp <;> omega
  · simp only [globalRoundSync, phaseOf, phaseSecondsLeftOf, secondsInMinute,
      ROUND_LENGTH_S, PREP_END_S, SPIN_END_S]
    split_ifs with h1 h2 <;> simp <;> omega
  · simp only [globalRoundSync, roundIdOf, ROUND_LENGTH_S]
    omega
  · simp only [globalRoundSync, hsec]
  · simp only [globalRoundSync, hsec]
  · simp only [globalRoundSync, hround]

/-- Witness for C2 at `t = 90000` ms: 30 seconds into round 1, i.e. still in
Preparation with 10 seconds of it left. -/
theorem c2_round_clock_witness :
    (globalRoundSync 90000).roundSecond = 30
    ∧ (globalRoundSync 90000).roundId = 1
    ∧ (globalRoundSync 90000).phase = GlobalPhase.preparation := by
  have h := c2_round_clock 90000
  refine ⟨?_, ?_, ?_⟩
  · rw [h.1]
  · rw [h.2.2.2.2.2.1]
  · exact h.2.1.mpr (by norm_num)

/-! ### Claim C9 -/

/-- C9: `getWinnerIndexForRound` is total and in range: for every
`segmentCount ≤ 0` it returns 0, and for every `segmentCount > 0` and every
integer `roundId` (negative included, via the absolute value) the result
lies in `[0, segmentCount)`. -/
theorem c9_winner_index_total (c r : ℤ) :
    (c ≤ 0 → getWinnerIndexForRound c r = 0)
    ∧ (0 < c →
        0 ≤ getWinnerIndexForRound c r ∧ getWinnerIndexForRound c r < c) := by
  constructor
  · intro h
    simp [getWinnerIndexForRound, h]
  · intro h
    have hne : c ≠ 0 := ne_of_gt h
    simp only [getWinnerIndexForRound, if_neg (not_le.mpr h)]
    exact ⟨Int.emod_nonneg _ hne, Int.emod_lt_of_pos _ h⟩

/-- Witness for C9 at `segmentCount = 5`, `roundId = -7`: the index is
non-negative and below 5 (and evaluates to 2). -/
theorem c9_winner_index_total_witness :
    (0 : ℤ) < 5
    ∧ (0 ≤ getWinnerIndexForRound 5 (-7) ∧ getWinnerIndexForRound 5 (-7) < 5)
    ∧ getWinnerIndexForRound 5 (-7) = 2 :=
  ⟨by norm_num, (c9_winner_index_total 5 (-7)).2 (by norm_num), by decide⟩

/-! ### Claim C1 -/

/-- C1: for every round with a non-empty segment list (the ordered
positive-stake participants), the winner index equals
`roundId mod segmentCount`, the broadcast spin offset is 52% of the way
into the winning segment's angular span, every segment indeed carries a
positive stake in the order the bets appear, and the selection is a pure
function (two calls on the same input agree). -/
theorem c1_winner_oracle (bets : List WheelBet) (r : ℤ)
    (hr : 0 ≤ r) (hne : (segmentsOf bets).length ≠ 0) :
    getWinnerIndexForRound ((segmentsOf bets).length : ℤ) r
        = r % ((segmentsOf bets).length : ℤ)
    ∧ (∃ seg, (segmentsOf bets).get? (r % ((segmentsOf bets).length : ℤ)).toNat
            = some seg
        ∧ hostPickWinner (segmentsOf bets) r
            = some (seg.id,
                seg.startAngle + (seg.endAngle - seg.startAngle) * (52 / 100)))
    ∧ (∀ seg ∈ segmentsOf bets, 0 < seg.amount)
    ∧ (segmentsOf bets).map Segment.id
        = (bets.filter fun b => decide (0 < b.amount)).map WheelBet.id
    ∧ hostPickWinner (segmentsOf bets) r = hostPickWinner (segmentsOf bets) r := by
  have hlen : 0 < (segmentsOf bets).length := Nat.pos_of_ne_zero hne
  have hlenz : (0 : ℤ) < ((segmentsOf bets).length : ℤ) := by exact_mod_cast hlen
  have hwin : getWinnerIndexForRound ((segmentsOf bets).length : ℤ) r
      = r % ((segmentsOf bets).length : ℤ) := by
    simp only [getWinnerIndexForRound, if_neg (not_le.mpr hlenz),
      Int.natAbs_of_nonneg hr]
  have hmodnn : 0 ≤ r % ((segmentsOf bets).length : ℤ) :=
    Int.emod_nonneg _ (ne_of_gt hlenz)
  have hmodlt : r % ((segmentsOf bets).length : ℤ) < ((segmentsOf bets).length : ℤ) :=
    Int.emod_lt_of_pos _ hlenz
  have hidx : (r % ((segmentsOf bets).length : ℤ)).toNat < (segmentsOf bets).length := by
    omega
  have hbranch : ¬ totalPool bets ≤ 0 := by
    intro h
    apply hne
    simp [segmentsOf, if_pos h]
  refine ⟨hwin, ?_, ?_, ?_, rfl⟩
  · refine ⟨(segmentsOf bets).get ⟨_, hidx⟩, List.get?_eq_get hidx, ?_⟩
    simp only [hostPickWinner, if_neg hne, hwin, List.get?_eq_get hidx]
  · intro seg hseg
    have hsegs : segmentsOf bets
        = mkSegmentsAux (totalPool bets)
            (bets.filter fun b => decide (0 < b.amount)) 0 0 := by
      simp [segmentsOf, if_neg hbranch]
    rw [hsegs] at hseg
    obtain ⟨b, hb, he⟩ := mkSegmentsAux_amount_mem _ _ _ _ seg hseg
    have hbpos := (List.mem_filter.mp hb).2
    rw [he]
    exact of_decide_eq_true hbpos
  · simp only [segmentsOf, if_neg hbranch]
    exact mkSegmentsAux_map_id _ _ _ _

/-- Demonstration ledger from the spec's scenario: the host stakes 10 and
peer `p1` stakes 20. -/
def demoBets : List WheelBet :=
  [{ id := "host", label := "Host", amount := 10 },
   { id := "p1", label := "Ann", amount := 20 }]

/-- Concrete evaluation of the demonstration wheel: the host owns the first
120 degrees and `p1` the remaining 240. -/
theorem segmentsOf_demoBets :
    segmentsOf demoBets =
      [{ id := "host", label := "Host", amount := 10,
         startAngle := 0, endAngle := 120, index := 0 },
       { id := "p1", label := "Ann", amount := 20,
         startAngle := 120, endAngle := 360, index := 1 }] := by
  norm_num [segmentsOf, totalPool, demoBets, mkSegmentsAux, List.filter]

/-- Witness for C1 at `demoBets` and `roundId = 7`: both hypotheses hold and
the conclusion follows by applying the theorem (`7 % 2 = 1`, so `p1` wins and
the spin angle is `120 + 240 * 0.52 = 244.8`). -/
theorem c1_winner_oracle_witness :
    ((0 : ℤ) ≤ 7 ∧ (segmentsOf demoBets).length ≠ 0)
    ∧ (getWinnerIndexForRound ((segmentsOf demoBets).length : ℤ) 7
          = 7 % ((segmentsOf demoBets).length : ℤ)
      ∧ (∃ seg, (segmentsOf demoBets).get?
              ((7 : ℤ) % ((segmentsOf demoBets).length : ℤ)).toNat = some seg
          ∧ hostPickWinner (segmentsOf demoBets) 7
              = some (seg.id,
                  seg.startAngle + (seg.endAngle - seg.startAngle) * (52 / 100)))
      ∧ (∀ seg ∈ segmentsOf demoBets, 0 < seg.amount)
      ∧ (segmentsOf demoBets).map Segment.id
          = (demoBets.filter fun b => decide (0 < b.amount)).map WheelBet.id
      ∧ hostPickWinner (segmentsOf demoBets) 7
          = hostPickWinner (segmentsOf demoBets) 7) :=
  ⟨⟨by norm_num, by rw [segmentsOf_demoBets]; norm_num⟩,
   c1_winner_oracle demoBets 7 (by norm_num) (by rw [segmentsOf_demoBets]; norm_num)⟩

/-! ### Ledger merge (WheelRoomProvider, `placeBet` handler) -/

/-- `existing?.amount ?? 0` where `existing = prev.find(b => b.id === peerId)`. -/
def stakeOf (prev : List WheelBet) (peerId : String) : ℚ :=
  match prev.find? (fun b => b.id == peerId) with
  | some b => b.amount
  | none => 0

/-- `existing?.label ?? "Peer"`. -/
def storedLabel (prev : List WheelBet) (peerId : String) : String :=
  match prev.find? (fun b => b.id == peerId) with
  | some b => b.label
  | none => "Peer"

/-- The host's `placeBet` merge:
`[...prev.filter(b => b.id !== peerId), { id: peerId, label: label || (existing?.label ?? "Peer"), amount: (existing?.amount ?? 0) + addedAmount }]`. -/
def mergeBet (prev : List WheelBet) (peerId label : String) (addedAmount : ℚ) :
    List WheelBet :=
  (prev.filter fun b => !(b.id == peerId)) ++
    [{ id := peerId,
       label := if label = "" then storedLabel prev peerId else label,
       amount := stakeOf prev peerId + addedAmount }]

theorem find?_filter_append (i : String) :
    ∀ (l rest : List WheelBet),
      ((l.filter fun b => !(b.id == i)) ++ rest).find? (fun b => b.id == i)
        = rest.find? (fun b => b.id == i)
  | [], _ => rfl
  | b :: l, rest => by
      by_cases hb : (b.id == i) = true
      · rw [List.filter_cons_of_neg (by simp [hb])]
        exact find?_filter_append i l rest
      · rw [List.filter_cons_of_pos (by simp [hb]), List.cons_append,
          List.find?_cons_of_neg _ (by simp [hb])]
        exact find?_filter_append i l rest

theorem stakeOf_mergeBet_self (prev : List WheelBet) (i lbl : String) (a : ℚ) :
    stakeOf (mergeBet prev i lbl a) i = stakeOf prev i + a := by
  simp only [stakeOf, mergeBet, find?_filter_append]
  simp [List.find?]

theorem storedLabel_mergeBet_self (prev : List WheelBet) (i lbl : String)
    (a : ℚ) (h : lbl ≠ "") :
    storedLabel (mergeBet prev i lbl a) i = lbl := by
  simp only [storedLabel, mergeBet, find?_filter_append]
  simp [List.find?, if_neg h]

theorem foldl_add_amount (f : WheelBet → ℚ) :
    ∀ (l : List WheelBet) (init : ℚ),
      l.foldl (fun s b => s + f b) init = init + (l.map f).sum
  | [], init => by simp
  | b :: l, init => by
      simp only [List.foldl_cons, List.map_cons, List.sum_cons]
      rw [foldl_add_amount f l (init + f b)]
      ring

theorem totalPool_eq_sum (l : List WheelBet) :
    totalPool l = (l.map fun b => b.amount).sum := by
  simpa using foldl_add_amount (fun b => b.amount) l 0

theorem sum_filter_add_stake (i : String) :
    ∀ (prev : List WheelBet), ((prev.map fun b => b.id).Nodup) →
      ((prev.filter fun b => !(b.id == i)).map fun b => b.amount).sum
          + stakeOf prev i
        = (prev.map fun b => b.amount).sum
  | [], _ => by simp [stakeOf]
  | b :: l, h => by
      rw [List.map_cons, List.nodup_cons] at h
      obtain ⟨hbid, hl⟩ := h
      by_cases hbi : (b.id == i) = true
      · have hbeq : b.id = i := by simpa using hbi
        rw [List.filter_cons_of_neg (by simp [hbi])]
        have hst : stakeOf (b :: l) i = b.amount := by
          simp [stakeOf, List.find?, hbi]
        have hfl : (l.filter fun x => !(x.id == i)) = l := by
          apply List.filter_eq_self.mpr
          intro x hx
          simp only [Bool.not_eq_true']
          apply beq_eq_false_iff_ne.mpr
          intro hxi
          exact hbid (by rw [hbeq, ← hxi]; exact List.mem_map_of_mem _ hx)
        rw [hst, hfl, List.map_cons, List.sum_cons]
        ring
      · rw [List.filter_cons_of_pos (by simp [hbi])]
        have hst : stakeOf (b :: l) i = stakeOf l i := by
          simp [stakeOf, List.find?, hbi]
        rw [hst, List.map_cons, List.sum_cons, List.map_cons, List.sum_cons,
          add_assoc, sum_filter_add_stake i l hl]

theorem totalPool_mergeBet (prev : List WheelBet) (i lbl : String) (a : ℚ)
    (hnd : (prev.map fun b => b.id).Nodup) :
    totalPool (mergeBet prev i lbl a) = totalPool prev + a := by
  rw [totalPool_eq_sum, totalPool_eq_sum, mergeBet, List.map_append,
    List.sum_append]
  simp only [List.map_cons, List.map_nil, List.sum_cons, List.sum_nil]
  rw [add_zero, ← add_assoc, sum_filter_add_stake i prev hnd]

theorem mergeBet_nodup (prev : List WheelBet) (i lbl : String) (a : ℚ)
    (hnd : (prev.map fun b => b.id).Nodup) :
    ((mergeBet prev i lbl a).map fun b => b.id).Nodup := by
  simp only [mergeBet, List.map_append, List.map_cons, List.map_nil]
  rw [List.nodup_append]
  refine ⟨hnd.sublist (List.Sublist.map _ (List.filter_sublist prev)),
    List.nodup_singleton _, ?_⟩
  intro x hx
  simp only [List.mem_map] at hx
  obtain ⟨b, hb, rfl⟩ := hx
  have := (List.mem_filter.mp hb).2
  simp only [Bool.not_eq_true', beq_eq_false_iff_ne] at this
  simpa using this

/-! ### Claim C3 -/

/-- C3: the host's merge of a delta `(participantId, label, amountDelta)`
adds `amountDelta` to the existing stake (creating the entry when absent —
`stakeOf prev A = 0` in that case) and updates the label, and applying two
deltas for distinct participants in either order yields the same pool, namely
the old pool plus both deltas. -/
theorem c3_ledger_merge (prev : List WheelBet) (A B lblA lblB : String)
    (a b : ℚ) (_hAB : A ≠ B) (hnd : (prev.map fun x => x.id).Nodup) :
    stakeOf (mergeBet prev A lblA a) A = stakeOf prev A + a
    ∧ (∃ e ∈ mergeBet prev A lblA a, e.id = A)
    ∧ (lblA ≠ "" → storedLabel (mergeBet prev A lblA a) A = lblA)
    ∧ totalPool (mergeBet (mergeBet prev A lblA a) B lblB b)
        = totalPool (mergeBet (mergeBet prev B lblB b) A lblA a)
    ∧ totalPool (mergeBet (mergeBet prev A lblA a) B lblB b)
        = totalPool prev + (a + b) := by
  have hpoolAB : totalPool (mergeBet (mergeBet prev A lblA a) B lblB b)
      = totalPool prev + (a + b) := by
    rw [totalPool_mergeBet _ B lblB b (mergeBet_nodup prev A lblA a hnd),
      totalPool_mergeBet prev A lblA a hnd]
    ring
  have hpoolBA : totalPool (mergeBet (mergeBet prev B lblB b) A lblA a)
      = totalPool prev + (a + b) := by
    rw [totalPool_mergeBet _ A lblA a (mergeBet_nodup prev B lblB b hnd),
      totalPool_mergeBet prev B lblB b hnd]
    ring
  refine ⟨stakeOf_mergeBet_self prev A lblA a, ?_, ?_, ?_, hpoolAB⟩
  · exact ⟨_, List.mem_append_right _ (List.mem_singleton_self _), rfl⟩
  · exact storedLabel_mergeBet_self prev A lblA a
  · rw [hpoolAB, hpoolBA]

/-- Witness for C3: applying `{(A,+10),(B,+20)}` to the empty ledger (the
spec's example) through the theorem gives pool `0 + (10 + 20) = 30`. -/
theorem c3_ledger_merge_witness :
    (("A" : String) ≠ "B" ∧ (([] : List WheelBet).map fun x => x.id).Nodup)
    ∧ totalPool (mergeBet (mergeBet [] "A" "Alice" 10) "B" "Bob" 20) = 30 := by
  have h := c3_ledger_merge [] "A" "B" "Alice" "Bob" 10 20 (by decide) (by simp)
  refine ⟨⟨by decide, by simp⟩, ?_⟩
  rw [h.2.2.2.2]
  norm_num [totalPool]

/-! ### Claim C7 -/

/-- `roundResetBets`: the host clears the ledger exactly on the
Reveal → Preparation transition (`prevPhaseRef.current === "reveal" && phase === "preparation"`),
and leaves it untouched otherwise. -/
def roundResetBets (prevPhase phase : GlobalPhase) (bets : List WheelBet) :
    List WheelBet :=
  if prevPhase = GlobalPhase.reveal ∧ phase = GlobalPhase.preparation then []
  else bets

/-- The amount guard of `addToWager` (LuckyWheelGame): rejects
`selectedStake <= 0 || selectedStake > balance`, non-Preparation phases, and
a disconnected peer; otherwise the delta sent is `selectedStake` itself. -/
def addToWagerAmount (selectedStake balance : ℚ) (phase : GlobalPhase)
    (roleIsPeer connected : Bool) : Option ℚ :=
  if selectedStake ≤ 0 ∨ balance < selectedStake then none
  else if phase ≠ GlobalPhase.preparation then none
  else if roleIsPeer && !connected then none
  else some selectedStake

theorem stakeOf_nonneg (prev : List WheelBet) (i : String)
    (hpos : ∀ b ∈ prev, 0 ≤ b.amount) : 0 ≤ stakeOf prev i := by
  unfold stakeOf
  cases hf : prev.find? (fun b => b.id == i) with
  | none => exact le_refl 0
  | some b => exact hpos b (List.mem_of_find?_eq_some hf)

/-- C7: the ledger invariant. After a merge of a non-negative delta into a
ledger of non-negative stakes, every stake is still non-negative; the pool is
the sum of the stakes; no participant's entry disappears on a merge; the
ledger is cleared exactly at the Reveal → Preparation transition and is left
intact by every other phase step; and every delta the betting UI actually
emits is strictly positive. -/
theorem c7_ledger_invariant (prev : List WheelBet) (i lbl : String) (a : ℚ)
    (ha : 0 ≤ a) (hpos : ∀ b ∈ prev, 0 ≤ b.amount) :
    (∀ b ∈ mergeBet prev i lbl a, 0 ≤ b.amount)
    ∧ totalPool (mergeBet prev i lbl a)
        = ((mergeBet prev i lbl a).map fun b => b.amount).sum
    ∧ (∀ b ∈ prev, ∃ e ∈ mergeBet prev i lbl a, e.id = b.id)
    ∧ (∀ bets : List WheelBet,
        roundResetBets GlobalPhase.reveal GlobalPhase.preparation bets = [])
    ∧ (∀ (p q : GlobalPhase) (bets : List WheelBet),
        ¬(p = GlobalPhase.reveal ∧ q = GlobalPhase.preparation) →
          roundResetBets p q bets = bets)
    ∧ (∀ (st bal : ℚ) (ph : GlobalPhase) (rp c : Bool) (amt : ℚ),
        addToWagerAmount st bal ph rp c = some amt → 0 < amt) := by
  refine ⟨?_, totalPool_eq_sum _, ?_, ?_, ?_, ?_⟩
  · intro b hb
    rcases List.mem_append.mp hb with hb | hb
    · exact hpos b (List.mem_filter.mp hb).1
    · rw [List.mem_singleton.mp hb]
      exact add_nonneg (stakeOf_nonneg prev i hpos) ha
  · intro b hb
    by_cases hbi : (b.id == i) = true
    · have hbeq : b.id = i := by simpa using hbi
      refine ⟨_, List.mem_append_right _ (List.mem_singleton_self _), ?_⟩
      simp [hbeq]
    · exact ⟨b, List.mem_append_left _
        (List.mem_filter.mpr ⟨hb, by simp [hbi]⟩), rfl⟩
  · intro bets
    simp [roundResetBets]
  · intro p q bets h
    simp [roundResetBets, h]
  · intro st bal ph rp c amt heq
    unfold addToWagerAmount at heq
    by_cases h1 : st ≤ 0 ∨ bal < st
    · simp [h1] at heq
    · rw [if_neg h1] at heq
      by_cases h2 : ph ≠ GlobalPhase.preparation
      · simp [h2] at heq
      · rw [if_neg h2] at heq
        by_cases h3 : (rp && !c) = true
        · simp [h3] at heq
        · rw [if_neg h3] at heq
          cases heq
          push_neg at h1
          exact h1.1

/-- Witness for C7 at `demoBets` with a delta of `+5` for `p1`: the
hypotheses hold and every stake after the merge is non-negative. -/
theorem c7_ledger_invariant_witness :
    ((0 : ℚ) ≤ 5 ∧ ∀ b ∈ demoBets, 0 ≤ b.amount)
    ∧ ∀ b ∈ mergeBet demoBets "p1" "Ann" 5, 0 ≤ b.amount := by
  have hpos : ∀ b ∈ demoBets, 0 ≤ b.amount := by
    intro b hb
    simp only [demoBets, List.mem_cons, List.not_mem_nil, or_false] at hb
    rcases hb with rfl | rfl <;> norm_num
  exact ⟨⟨by norm_num, hpos⟩,
    (c7_ledger_invariant demoBets "p1" "Ann" 5 (by norm_num) hpos).1⟩

/-! ### Payout (LuckyWheelGame, reveal effect) -/

/-- `HOUSE_TAKE = 0.05`. -/
def houseTake : ℚ := 5 / 100

/-- `PAYOUT_RATIO = 1 - HOUSE_TAKE`. -/
def payoutRatio : ℚ := 1 - houseTake

/-- The `payoutAmount` memo: `displayTotalPool * PAYOUT_RATIO`. -/
def payoutAmount (displayTotalPool : ℚ) : ℚ := displayTotalPool * payoutRatio

/-- Host-side state touched by the reveal effect: the once-per-round payment
latch (`hasPaidRef`), the in-app balance, and the local committed bet. -/
structure HostRevealState where
  hasPaid : Bool
  balance : ℚ
  committedBet : ℚ
deriving DecidableEq, Repr

/-- One run of the host's reveal effect for winner `w` and pool `pool`
(LuckyWheelGame): no-op unless the pool is positive; if the winner is the
host itself, credit `pool * PAYOUT_RATIO` guarded by the `hasPaidRef` latch;
otherwise emit a `youWon` notification `(winner.id, payout)` to that peer. -/
def hostRevealStep (w : Segment) (pool : ℚ) (s : HostRevealState) :
    HostRevealState × Option (String × ℚ) :=
  if pool ≤ 0 then (s, none)
  else
    if w.id = "host" then
      if s.hasPaid then (s, none)
      else ({ hasPaid := true,
              balance := s.balance + pool * payoutRatio,
              committedBet := 0 }, none)
    else (s, some (w.id, pool * payoutRatio))

/-! ### Claim C8 -/

/-- C8: the payout equals the pool times 0.95 (a pool of 30 pays 28.50);
when the winner is the host, the credit is applied exactly once per round
(running the effect a second time leaves the balance unchanged); when the
winner is a peer, the host emits a `youWon` message carrying exactly
`pool * 0.95`. -/
theorem c8_payout (w : Segment) (pool : ℚ) (s : HostRevealState)
    (hpool : 0 < pool) :
    payoutRatio = 95 / 100
    ∧ payoutAmount 30 = 57 / 2
    ∧ (w.id = "host" → s.hasPaid = false →
        (hostRevealStep w pool s).1.balance = s.balance + pool * (95 / 100)
        ∧ (hostRevealStep w pool s).1.hasPaid = true
        ∧ (hostRevealStep w pool (hostRevealStep w pool s).1).1.balance
            = s.balance + pool * (95 / 100)
        ∧ (hostRevealStep w pool s).2 = none)
    ∧ (w.id ≠ "host" →
        (hostRevealStep w pool s).2 = some (w.id, pool * (95 / 100))
        ∧ (hostRevealStep w pool s).1 = s) := by
  have hratio : payoutRatio = 95 / 100 := by norm_num [payoutRatio, houseTake]
  have hnle : ¬ pool ≤ 0 := not_le.mpr hpool
  refine ⟨hratio, by norm_num [payoutAmount, payoutRatio, houseTake], ?_, ?_⟩
  · intro hw hp
    simp [hostRevealStep, if_neg hnle, if_pos hw, hp, hratio]
  · intro hw
    simp [hostRevealStep, if_neg hnle, if_neg hw, hratio]

/-- The host's own segment in the demonstration wheel. -/
def demoHostSeg : Segment := ⟨"host", "Host", 10, 0, 120, 0⟩

/-- A host reveal state before any payment this round. -/
def demoRevealState : HostRevealState := ⟨false, 1000, 10⟩

/-- Witness for C8: with the spec's 30-unit pool and the host as winner, a
first run credits `30 * 0.95 = 28.5`. -/
theorem c8_payout_witness :
    ((0 : ℚ) < 30 ∧ demoHostSeg.id = "host" ∧ demoRevealState.hasPaid = false)
    ∧ (hostRevealStep demoHostSeg 30 demoRevealState).1.balance
        = 1000 + 30 * (95 / 100) := by
  have h := c8_payout demoHostSeg 30 demoRevealState (by norm_num)
  exact ⟨⟨by norm_num, rfl, rfl⟩, (h.2.2.1 rfl rfl).1⟩

/-! ### Heartbeat / liveness (WheelRoomProvider, peer side) -/

/-- The heartbeat interval period: `setInterval(..., 2000)`. -/
def HEARTBEAT_CHECK_MS : ℕ := 2000

/-- The staleness bound: `Date.now() - lastHostMessageTime > 4000`. -/
def HOST_STALE_MS : ℕ := 4000

/-- The peer-side link state the heartbeat machinery manipulates:
`lastHostMessageTime`, the `connected` flag, whether the interval is still
armed, and whether `runPeerMigrationDelayed` has been triggered. -/
structure PeerLink where
  lastHostMessageTime : ℕ
  connected : Bool
  heartbeatActive : Bool
  migrating : Bool
deriving DecidableEq, Repr

/-- `conn.on("data", ...)`: every message from the host first does
`lastHostMessageTime = Date.now()`. -/
def onHostMessage (s : PeerLink) (nowMs : ℕ) : PeerLink :=
  { s with lastHostMessageTime := nowMs }

/-- One firing of the heartbeat interval: if
`Date.now() - lastHostMessageTime > 4000`, clear the interval, mark the peer
disconnected and start migration; otherwise do nothing. -/
def heartbeatCheck (s : PeerLink) (nowMs : ℕ) : PeerLink :=
  if HOST_STALE_MS < nowMs - s.lastHostMessageTime then
    { s with heartbeatActive := false, connected := false, migrating := true }
  else s

/-! ### Claim C5 -/

/-- C5: a host message resets the last-host-message timestamp; the periodic
check runs every 2 s against a 4 s staleness bound; a check at a stale
instant tears the link down (interval cleared, marked disconnected,
migration started); and consequently a peer that is still connected after a
check necessarily saw a host message within the staleness bound. -/
theorem c5_heartbeat (s : PeerLink) (t : ℕ) :
    (onHostMessage s t).lastHostMessageTime = t
    ∧ HEARTBEAT_CHECK_MS = 2000
    ∧ HOST_STALE_MS = 4000
    ∧ (HOST_STALE_MS < t - s.lastHostMessageTime →
        (heartbeatCheck s t).connected = false
        ∧ (heartbeatCheck s t).heartbeatActive = false
        ∧ (heartbeatCheck s t).migrating = true)
    ∧ (¬ HOST_STALE_MS < t - s.lastHostMessageTime → heartbeatCheck s t = s)
    ∧ ((heartbeatCheck s t).connected = true →
        t - s.lastHostMessageTime ≤ HOST_STALE_MS ∧ s.connected = true) := by
  refine ⟨rfl, rfl, rfl, ?_, ?_, ?_⟩
  · intro h
    simp [heartbeatCheck, if_pos h]
  · intro h
    simp [heartbeatCheck, if_neg h]
  · intro h
    by_cases hst : HOST_STALE_MS < t - s.lastHostMessageTime
    · rw [heartbeatCheck, if_pos hst] at h
      cases h
    · rw [heartbeatCheck, if_neg hst] at h
      exact ⟨not_lt.mp hst, h⟩

/-- A live peer link whose last host message arrived at time 0. -/
def demoPeerLink : PeerLink := ⟨0, true, true, false⟩

/-- Witness for C5: a check at `t = 5000` on a link whose last host message
was at `t = 0` (age 5000 > 4000) disconnects the peer and starts migration. -/
theorem c5_heartbeat_witness :
    HOST_STALE_MS < 5000 - demoPeerLink.lastHostMessageTime
    ∧ ((heartbeatCheck demoPeerLink 5000).connected = false
      ∧ (heartbeatCheck demoPeerLink 5000).heartbeatActive = false
      ∧ (heartbeatCheck demoPeerLink 5000).migrating = true) :=
  ⟨by decide, (c5_heartbeat demoPeerLink 5000).2.2.2.1 (by decide)⟩

/-! ### Migration (WheelRoomProvider, `runPeerMigration`) -/

/-- Observable events of a migration run. -/
inductive MigEvent
  | destroyConn
  | claimAttempt
  | rejected
  | claimed
  | backoff (ms : ℕ)
  | fallbackJoin
deriving DecidableEq, Repr

/-- `maxRetries = 3` in `runPeerMigration`. -/
def maxRetries : ℕ := 3

/-- The fixed backoff between claim retries: `setTimeout(..., 2500)`. -/
def MIGRATION_BACKOFF_MS : ℕ := 2500

/-- One claim attempt of `runPeerMigration` with the retry counter at
`retries`, where the signaling service will still reject `k` more attempts:
on rejection `onIdTaken` increments the counter and either schedules another
`createRoom` after the 2500 ms backoff (`retries + 1 < maxRetries`) or calls
`joinRoom` on the same room id. -/
def migAttempt : ℕ → ℕ → List MigEvent
  | _, 0 => [MigEvent.claimAttempt, MigEvent.claimed]
  | retries, k + 1 =>
      MigEvent.claimAttempt :: MigEvent.rejected ::
        (if retries + 1 < maxRetries then
          MigEvent.backoff MIGRATION_BACKOFF_MS :: migAttempt (retries + 1) k
        else [MigEvent.fallbackJoin])

/-- `runPeerMigration` against a signaling service that rejects the first
`k` claim attempts: destroy the old host connection (`p.destroy()`), then
claim with the retry counter at 0. -/
def runPeerMigration (k : ℕ) : List MigEvent :=
  MigEvent.destroyConn :: migAttempt 0 k

/-! ### Claim C4 -/

/-- C4: when every claim is rejected, the migrating peer first destroys its
host connection, makes exactly `maxRetries = 3` claim attempts — each retry
scheduled after a fixed 2500 ms backoff — and after the last rejection falls
back to a plain join of the same room id; when fewer than `maxRetries`
rejections occur, the peer becomes host after exactly that many backoffs. -/
theorem c4_migration (k : ℕ) (hk : 3 ≤ k) :
    runPeerMigration k =
      [MigEvent.destroyConn, MigEvent.claimAttempt, MigEvent.rejected,
       MigEvent.backoff 2500, MigEvent.claimAttempt, MigEvent.rejected,
       MigEvent.backoff 2500, MigEvent.claimAttempt, MigEvent.rejected,
       MigEvent.fallbackJoin]
    ∧ (runPeerMigration k).count MigEvent.claimAttempt = maxRetries
    ∧ (runPeerMigration k).getLast? = some MigEvent.fallbackJoin
    ∧ (∀ m, m < maxRetries →
        (runPeerMigration m).count (MigEvent.backoff MIGRATION_BACKOFF_MS) = m
        ∧ (runPeerMigration m).getLast? = some MigEvent.claimed) := by
  obtain ⟨m, rfl⟩ : ∃ m, k = m + 3 := ⟨k - 3, by omega⟩
  have htr : runPeerMigration (m + 3) =
      [MigEvent.destroyConn, MigEvent.claimAttempt, MigEvent.rejected,
       MigEvent.backoff 2500, MigEvent.claimAttempt, MigEvent.rejected,
       MigEvent.backoff 2500, MigEvent.claimAttempt, MigEvent.rejected,
       MigEvent.fallbackJoin] := by
    show MigEvent.destroyConn :: migAttempt 0 (m + 3) = _
    rw [show m + 3 = (m + 2) + 1 from rfl, migAttempt,
      if_pos (by norm_num [maxRetries]),
      show m + 2 = (m + 1) + 1 from rfl, migAttempt,
      if_pos (by norm_num [maxRetries]),
      show m + 1 = m + 1 from rfl, migAttempt,
      if_neg (by norm_num [maxRetries])]
    rfl
  refine ⟨htr, ?_, ?_, ?_⟩
  · rw [htr]; decide
  · rw [htr]; decide
  · intro m2 hm2
    have : m2 < 3 := by simpa [maxRetries] using hm2
    interval_cases m2 <;> exact ⟨by decide, by decide⟩

/-- Witness for C4 at `k = 3` rejections: the hypothesis holds and the full
event trace is exact. -/
theorem c4_migration_witness :
    3 ≤ 3
    ∧ runPeerMigration 3 =
      [MigEvent.destroyConn, MigEvent.claimAttempt, MigEvent.rejected,
       MigEvent.backoff 2500, MigEvent.claimAttempt, MigEvent.rejected,
       MigEvent.backoff 2500, MigEvent.claimAttempt, MigEvent.rejected,
       MigEvent.fallbackJoin] :=
  ⟨by norm_num, (c4_migration 3 (by norm_num)).1⟩

/-! ### CreateOrClaim (WheelRoomProvider, `createRoom`) -/

/-- The claim timer: `idTakenTimer = setTimeout(tryJoinInstead, 6000)`. -/
def CLAIM_TIMEOUT_MS : ℕ := 6000

/-- The handover delay before invoking the fallback:
`setTimeout(() => onIdTaken(), 600)`. -/
def HOST_RELEASE_DELAY_MS : ℕ := 600

/-- The (at most one) signal the signaling service delivers to a
`createRoom` call: `open` at time `t`, an error (id taken) at time `t`, or
nothing at all. -/
inductive ClaimSignal
  | openAt (t : ℕ)
  | errorAt (t : ℕ)
  | silence
deriving DecidableEq, Repr

/-- Whether the signal is a successful `open`. -/
def isOpenSignal : ClaimSignal → Bool
  | ClaimSignal.openAt _ => true
  | _ => false

/-- Observable outcome of one `createRoom` call: whether the `open` handler
ran (role set to host, ledger reset, connection map cleared, connected), and
at which times the `onIdTaken` fallback was invoked. -/
structure CreateRoomOutcome where
  becameHost : Bool
  bets : List WheelBet
  connectionsReset : Bool
  connected : Bool
  fallbackTimes : List ℕ
deriving DecidableEq, Repr

/-- The `p.on("open")` handler: `setRole("host")`,
`setNetworkBets(initialBets ?? [])`, `setConnections(new Map())`,
`setConnected(true)`. -/
def hostOpened (initialBets : Option (List WheelBet)) : CreateRoomOutcome :=
  { becameHost := true
    bets := initialBets.getD []
    connectionsReset := true
    connected := true
    fallbackTimes := [] }

/-- `tryJoinInstead` reached at time `detectedAt`: destroy the peer and
schedule `onIdTaken` 600 ms later (only when a fallback was supplied). -/
def claimRejected (hasOnIdTaken : Bool) (detectedAt : ℕ) : CreateRoomOutcome :=
  { becameHost := false
    bets := []
    connectionsReset := false
    connected := false
    fallbackTimes :=
      if hasOnIdTaken then [detectedAt + HOST_RELEASE_DELAY_MS] else [] }

/-- One `createRoom(roomId, onIdTaken?, initialBets?)` call under a given
claim signal.  The 6000 ms timer is armed only when a fallback is supplied;
whichever of the signal and the timer comes first wins (an `open` or error
arriving at or after 6000 ms is preempted by the timer, which has already
destroyed the peer). -/
def createRoomRun (initialBets : Option (List WheelBet)) (hasOnIdTaken : Bool) :
    ClaimSignal → CreateRoomOutcome
  | ClaimSignal.openAt t =>
      if hasOnIdTaken && decide (CLAIM_TIMEOUT_MS ≤ t) then
        claimRejected hasOnIdTaken CLAIM_TIMEOUT_MS
      else hostOpened initialBets
  | ClaimSignal.errorAt t =>
      if hasOnIdTaken && decide (CLAIM_TIMEOUT_MS ≤ t) then
        claimRejected hasOnIdTaken CLAIM_TIMEOUT_MS
      else claimRejected hasOnIdTaken t
  | ClaimSignal.silence => claimRejected hasOnIdTaken CLAIM_TIMEOUT_MS

/-! ### Claim C6 (corrected) -/

/-- Counterexample to C6 as stated: a claim rejection whose error arrives at
5999 ms has the fallback invoked at `5999 + 600 = 6599` ms, which exceeds
the claimed 6-second bound (and the silence case fires it at 6600 ms). -/
theorem c6_counterexample :
    (createRoomRun none true (ClaimSignal.errorAt 5999)).fallbackTimes = [6599]
    ∧ ¬ (6599 : ℕ) ≤ CLAIM_TIMEOUT_MS
    ∧ (createRoomRun none true ClaimSignal.silence).fallbackTimes = [6600] := by
  decide

/-- C6 (amended): on a successful claim (`open` before the 6000 ms timer)
the process becomes host with the ledger reset to the supplied snapshot or
empty, the connection set cleared and no fallback invocation; on any
rejection (explicit error or silence) the fallback is invoked exactly once,
at a time bounded by the 6000 ms claim timer plus the fixed 600 ms handover
delay, i.e. within 6600 ms. -/
theorem c6_create_or_claim (init : Option (List WheelBet)) (t : ℕ)
    (sig : ClaimSignal) (hsig : isOpenSignal sig = false) :
    (t < CLAIM_TIMEOUT_MS →
        createRoomRun init true (ClaimSignal.openAt t) = hostOpened init
        ∧ (hostOpened init).becameHost = true
        ∧ (hostOpened init).bets = init.getD []
        ∧ (hostOpened init).connectionsReset = true
        ∧ (hostOpened init).fallbackTimes = [])
    ∧ (createRoomRun init true sig).becameHost = false
    ∧ (createRoomRun init true sig).fallbackTimes.length = 1
    ∧ (∀ u ∈ (createRoomRun init true sig).fallbackTimes,
        u ≤ CLAIM_TIMEOUT_MS + HOST_RELEASE_DELAY_MS) := by
  have hopen : ∀ u : ℕ, u < CLAIM_TIMEOUT_MS →
      createRoomRun init true (ClaimSignal.openAt u) = hostOpened init := by
    intro u hu
    have hd : decide (CLAIM_TIMEOUT_MS ≤ u) = false :=
      decide_eq_false (not_le.mpr hu)
    simp [createRoomRun, hd]
  refine ⟨fun h => ⟨hopen t h, rfl, rfl, rfl, rfl⟩, ?_⟩
  cases sig with
  | openAt u => simp [isOpenSignal] at hsig
  | errorAt u =>
      by_cases hu : CLAIM_TIMEOUT_MS ≤ u
      · have hu6 : (6000 : ℕ) ≤ u := by simpa [CLAIM_TIMEOUT_MS] using hu
        refine ⟨?_, ?_, ?_⟩ <;>
          simp [createRoomRun, hu6, claimRejected, CLAIM_TIMEOUT_MS,
            HOST_RELEASE_DELAY_MS]
      · have hu6 : ¬ (6000 : ℕ) ≤ u := by simpa [CLAIM_TIMEOUT_MS] using hu
        refine ⟨?_, ?_, ?_⟩ <;>
          simp [createRoomRun, hu6, claimRejected, CLAIM_TIMEOUT_MS,
            HOST_RELEASE_DELAY_MS]
        omega
  | silence =>
      refine ⟨?_, ?_, ?_⟩ <;>
        simp [createRoomRun, claimRejected, CLAIM_TIMEOUT_MS,
          HOST_RELEASE_DELAY_MS]

/-- Witness for C6 (amended) in the silence case: the hypotheses hold, the
fallback fires exactly once, and within the 6600 ms bound. -/
theorem c6_create_or_claim_witness :
    isOpenSignal ClaimSignal.silence = false
    ∧ (createRoomRun none true ClaimSignal.silence).fallbackTimes.length = 1
    ∧ ∀ u ∈ (createRoomRun none true ClaimSignal.silence).fallbackTimes,
        u ≤ CLAIM_TIMEOUT_MS + HOST_RELEASE_DELAY_MS := by
  have h := c6_create_or_claim none 0 ClaimSignal.silence (by decide)
  exact ⟨by decide, h.2.2.1, h.2.2.2⟩

/-! ### In-app balance (BalanceProvider) -/

/-- `INITIAL_BALANCE = 1000`. -/
def INITIAL_BALANCE : ℚ := 1000

/-- The three balance operations exposed by `BalanceProvider`. -/
inductive BalanceOp
  | add (amount : ℚ)
  | deduct (amount : ℚ)
  | reset
deriving DecidableEq

/-- `add`: `b + amount`; `deduct`: `Math.max(0, b - amount)`;
`reset`: `INITIAL_BALANCE`. -/
def applyBalanceOp (b : ℚ) : BalanceOp → ℚ
  | BalanceOp.add a => b + a
  | BalanceOp.deduct a => max 0 (b - a)
  | BalanceOp.reset => INITIAL_BALANCE

/-- A sequence of balance operations applied in order. -/
def runBalanceOps (b : ℚ) (ops : List BalanceOp) : ℚ :=
  ops.foldl applyBalanceOp b

/-- The discipline the application obeys: amounts passed to `add` are
non-negative (payouts); `deduct` and `reset` are unrestricted. -/
def addsNonNeg : BalanceOp → Prop
  | BalanceOp.add a => 0 ≤ a
  | _ => True

theorem runBalanceOps_nonneg :
    ∀ (ops : List BalanceOp) (b0 : ℚ), 0 ≤ b0 →
      (∀ op ∈ ops, addsNonNeg op) → 0 ≤ runBalanceOps b0 ops
  | [], b0, h, _ => h
  | op :: ops, b0, h, hops => by
      have hstep : 0 ≤ applyBalanceOp b0 op := by
        cases op with
        | add a => exact add_nonneg h (hops _ (List.mem_cons_self _ _))
        | deduct a => exact le_max_left 0 _
        | reset => norm_num [applyBalanceOp, INITIAL_BALANCE]
      have := runBalanceOps_nonneg ops (applyBalanceOp b0 op) hstep
        (fun o ho => hops o (List.mem_cons_of_mem _ ho))
      simpa [runBalanceOps] using this

/-! ### Claim C10 -/

/-- C10: starting from any non-negative balance (the initial 1000 or a
persisted non-negative value), every balance reachable through `add` with
non-negative amounts, arbitrary `deduct`s and `reset`s is non-negative;
moreover `deduct` clamps at 0 for every amount, `reset` restores the
initial 1000, and `add` of a non-negative amount preserves non-negativity. -/
theorem c10_balance (b0 : ℚ) (ops : List BalanceOp)
    (h0 : 0 ≤ b0) (hops : ∀ op ∈ ops, addsNonNeg op) :
    0 ≤ runBalanceOps b0 ops
    ∧ INITIAL_BALANCE = 1000
    ∧ (∀ b a : ℚ, 0 ≤ applyBalanceOp b (BalanceOp.deduct a)
        ∧ applyBalanceOp b (BalanceOp.deduct a) = max 0 (b - a))
    ∧ (∀ b : ℚ, applyBalanceOp b BalanceOp.reset = INITIAL_BALANCE)
    ∧ (∀ b a : ℚ, 0 ≤ b → 0 ≤ a → 0 ≤ applyBalanceOp b (BalanceOp.add a)) := by
  refine ⟨runBalanceOps_nonneg ops b0 h0 hops, rfl, ?_, fun _ => rfl, ?_⟩
  · intro b a
    exact ⟨le_max_left 0 _, rfl⟩
  · intro b a hb ha
    exact add_nonneg hb ha

/-- A sample operation sequence: wager 200, get a 50 payout, reset, then
over-deduct 5000 (which clamps at 0). -/
def demoOps : List BalanceOp :=
  [BalanceOp.deduct 200, BalanceOp.add 50, BalanceOp.reset,
   BalanceOp.deduct 5000]

/-- Witness for C10 on `demoOps` from the initial balance 1000. -/
theorem c10_balance_witness :
    ((0 : ℚ) ≤ 1000 ∧ ∀ op ∈ demoOps, addsNonNeg op)
    ∧ 0 ≤ runBalanceOps 1000 demoOps := by
  have hops : ∀ op ∈ demoOps, addsNonNeg op := by
    intro op hop
    simp only [demoOps, List.mem_cons, List.not_mem_nil, or_false] at hop
    rcases hop with rfl | rfl | rfl | rfl <;> norm_num [addsNonNeg]
  exact ⟨⟨by norm_num, hops⟩, (c10_balance 1000 demoOps (by norm_num) hops).1⟩

end Gridy
